import Mathlib

/-!
Shallow embedding of `KoBERTScore/score.py` (MrBananaHuman/KoBERTScore).

Tensors of the Python code are modelled as (possibly nested) lists of real
numbers: a `(B, K)` tensor is a `List (List ℝ)` and a `(B, K, D)` tensor is a
`List (List (List ℝ))`.  Floating point arithmetic is modelled by exact real
arithmetic; in particular `x / 0 = 0` in this model, where IEEE-754 would
produce `inf`/`NaN`.  The pretrained transformer encoder and the tokenizer are
external collaborators of the repository (spec §1, §6) and are modelled as
abstract function parameters.
-/

namespace KoBERTScore

noncomputable section

/-- Dot product of two rows, `(u * v).sum()` with broadcasting truncation as in
`List.zipWith`.  This is the elementwise-product-and-sum used by `torch.bmm`
rows in `compute_pairwise_cosine`. -/
def dotL (u v : List ℝ) : ℝ := (List.zipWith (fun a b => a * b) u v).sum

/-- `torch.norm(v, dim=-1)` for a single row: the L2 norm, the square root of
the sum of squares of the entries. -/
def rowNorm (v : List ℝ) : ℝ := Real.sqrt (dotL v v)

/-- One row of `normalize` in `compute_pairwise_cosine` (score.py lines
191-193): every entry is divided by the row's L2 norm.  No epsilon guard is
present in the source. -/
def normalizeRow (v : List ℝ) : List ℝ := v.map (fun x => x / rowNorm v)

/-- `torch.max` along the last dimension of a nonempty slice.  `torch` raises
an error on an empty dimension; the `[]` case is given the junk value `0` and
is never reached under the shape hypotheses of the theorems below. -/
def listMax : List ℝ → ℝ
  | [] => 0
  | x :: xs => xs.foldl max x

/-- Number of columns of a rectangular matrix represented as a row list. -/
def numCols (m : List (List ℝ)) : ℕ := (m.headD []).length

/-- Maximum of column `j` of a matrix, as used by `pairwise_cosine.max(dim=1)`
(score.py line 155). -/
def colMax (m : List (List ℝ)) (j : ℕ) : ℝ := listMax (m.map (fun row => row.getD j 0))

/-- `compute_pairwise_cosine` (score.py lines 170-198), value part: normalize
every token vector of both batches to unit L2 norm, then for every sentence of
the batch compute all pairwise dot products
`pairwise[b][i][j] = ⟪refer[b][i], candi[b][j]⟫` (`torch.bmm` with the second
operand transposed). -/
def compute_pairwise_cosine (refer_embeds candi_embeds : List (List (List ℝ))) :
    List (List (List ℝ)) :=
  List.zipWith (fun rs cs => rs.map (fun u => cs.map (fun v => dotL u v)))
    (refer_embeds.map (fun sent => sent.map normalizeRow))
    (candi_embeds.map (fun sent => sent.map normalizeRow))

/-- `pairwise_cosine.max(dim=2)` (score.py line 154): per-sentence, the maximum
of every row of the similarity matrix. -/
def R_max_of (pc : List (List (List ℝ))) : List (List ℝ) :=
  pc.map (fun m => m.map listMax)

/-- `pairwise_cosine.max(dim=1)` (score.py line 155): per-sentence, the maximum
of every column of the similarity matrix. -/
def P_max_of (pc : List (List (List ℝ))) : List (List ℝ) :=
  pc.map (fun m => (List.range (numCols m)).map (colMax m))

/-- `apply_idf` (score.py lines 201-224): look every token id up in the IDF
embedding table, giving a `(batch, max seq len)` weight tensor.  The
`nn.Embedding` table is modelled as a total lookup function `ℕ → ℝ`. -/
def apply_idf (ids : List (List ℕ)) (idf_embed : ℕ → ℝ) : List (List ℝ) :=
  ids.map (fun row => row.map idf_embed)

/-- `rescaling` (score.py lines 227-245) applied to a `(batch, max seq len)`
tensor: the affine transform `(score - base) / (1 - base)`. -/
def rescaling (scores : List (List ℝ)) (base : ℝ) : List (List ℝ) :=
  scores.map (fun row => row.map (fun s => (s - base) / (1 - base)))

/-- `compute_RPF` (score.py lines 127-167).  Mirrors the source exactly: the
pairwise cosine tensor, row maxima (`R_max`) and column maxima (`P_max`); if an
IDF table and both id tensors are given, both weight masks are replaced by the
IDF lookups; both max tensors are rescaled; each side is reduced to the
mask-weighted average per sentence, and F is the harmonic mean `2RP/(R+P)`. -/
def compute_RPF (refer_embeds candi_embeds : List (List (List ℝ)))
    (refer_weight_mask candi_weight_mask : List (List ℝ))
    (refer_ids candi_ids : Option (List (List ℕ)))
    (idf : Option (ℕ → ℝ)) (rescale_base : ℝ) :
    List ℝ × List ℝ × List ℝ :=
  let pairwise_cosine := compute_pairwise_cosine refer_embeds candi_embeds
  let R_max0 := R_max_of pairwise_cosine
  let P_max0 := P_max_of pairwise_cosine
  let rwm := match idf, refer_ids, candi_ids with
    | some w, some rids, some _ => apply_idf rids w
    | _, _, _ => refer_weight_mask
  let cwm := match idf, refer_ids, candi_ids with
    | some w, some _, some cids => apply_idf cids w
    | _, _, _ => candi_weight_mask
  let R_max := rescaling R_max0 rescale_base
  let P_max := rescaling P_max0 rescale_base
  let R := List.zipWith (fun s w => dotL s w / w.sum) R_max rwm
  let P := List.zipWith (fun s w => dotL s w / w.sum) P_max cwm
  let F := List.zipWith (fun r p => 2 * (r * p) / (r + p)) R P
  (R, P, F)

/-- State-passing rendering of `compute_pairwise_cosine`'s in-place
normalization (score.py lines 191-196): `embeds.div_(...)` destructively
rescales the caller's tensors, so the call's post-state of both argument
buffers is the normalized tensor.  The first two components are the caller's
`refer_embeds` and `candi_embeds` buffers after the call; the third is the
returned pairwise cosine tensor. -/
def compute_pairwise_cosine_state (refer_embeds candi_embeds : List (List (List ℝ))) :
    List (List (List ℝ)) × List (List (List ℝ)) × List (List (List ℝ)) :=
  let refer_after := refer_embeds.map (fun sent => sent.map normalizeRow)
  let candi_after := candi_embeds.map (fun sent => sent.map normalizeRow)
  (refer_after, candi_after,
    List.zipWith (fun rs cs => rs.map (fun u => cs.map (fun v => dotL u v)))
      refer_after candi_after)

/-- Modelled from the spec: the external tokenizer interface (spec §6), used by
`sents_to_tensor`.  `encode` maps one sentence to its token-id sequence
(including the begin/end markers the tokenizer inserts); the reserved ids and
the vocabulary size (`len(tokenizer)`) are exposed as fields. -/
structure Tokenizer where
  encode : String → List ℕ
  cls_token_id : ℕ
  sep_token_id : ℕ
  pad_token_id : ℕ
  vocab_size : ℕ

/-- Right-padding of one token sequence to length `k` with the pad id, as done
by `batch_encode_plus(..., padding=True)`. -/
def pad_to (k : ℕ) (p : ℕ) (l : List ℕ) : List ℕ := l ++ List.replicate (k - l.length) p

/-- Maximum token-sequence length over a batch. -/
def batch_max_len (ls : List (List ℕ)) : ℕ := ls.foldr (fun l m => max l.length m) 0

/-- `sents_to_tensor` (score.py lines 59-100).  The call to
`batch_encode_plus(..., padding=True)` is modelled from the spec (§6): every
sentence is encoded and right-padded with the pad id to the batch maximum
length, the attention mask is 1 on real tokens and 0 on padding.  The
`token_mask` is the source's two `torch.where` lines: the attention mask with
positions whose id equals the cls or sep id forced to 0. -/
def sents_to_tensor (tok : Tokenizer) (input_sents : List String) :
    List (List ℕ) × List (List ℝ) × List (List ℝ) :=
  let toks := input_sents.map tok.encode
  let maxlen := batch_max_len toks
  let padded_input_ids := toks.map (pad_to maxlen tok.pad_token_id)
  let attention_mask := toks.map
    (fun t => List.replicate t.length (1 : ℝ) ++ List.replicate (maxlen - t.length) 0)
  let token_mask := List.zipWith
    (fun ids attn => List.zipWith
      (fun i a => if i = tok.cls_token_id then 0 else if i = tok.sep_token_id then 0 else a)
      ids attn)
    padded_input_ids attention_mask
  (padded_input_ids, attention_mask, token_mask)

/-- Type of the external embedding provider (spec §6): padded token ids and
attention mask to per-token embedding vectors at the configured layer. -/
abbrev EncoderT := List (List ℕ) → List (List ℝ) → List (List (List ℝ))

/-- `bert_forwarding` (score.py lines 103-124): the black-box encoder applied
to the batch; layer selection is absorbed into the abstract provider. -/
def bert_forwarding (model : EncoderT) (input_ids : List (List ℕ))
    (attention_mask : List (List ℝ)) : List (List (List ℝ)) :=
  model input_ids attention_mask

/-- `bert_score` (score.py lines 8-56).  Note the source's line 53: the
candidate side of `compute_RPF` receives `candi_attention_mask`, not the
computed `candi_weight_mask` (which is left unused, exactly as in the
source). -/
def bert_score (tok : Tokenizer) (model : EncoderT)
    (references candidates : List String)
    (idf : Option (ℕ → ℝ)) (rescale_base : ℝ) :
    List ℝ × List ℝ × List ℝ :=
  let r := sents_to_tensor tok references
  let c := sents_to_tensor tok candidates
  let refer_embeds := bert_forwarding model r.1 r.2.1
  let candi_embeds := bert_forwarding model c.1 c.2.1
  compute_RPF refer_embeds candi_embeds r.2.2 c.2.1 (some r.1) (some c.1) idf rescale_base

/-- `BERTScore.score` (score.py lines 264-284): ceil-divide the reference list
length into batches, score each slice `references[b:e]`, `candidates[b:e]`
with `bert_score`, and append the F components.  No validation of the two list
lengths is performed, exactly as in the source. -/
def BERTScore_score (tok : Tokenizer) (model : EncoderT) (idf : Option (ℕ → ℝ))
    (rescale_base : ℝ) (references candidates : List String) (batch_size : ℕ) : List ℝ :=
  let n_examples := references.length
  let n_batch := (n_examples + batch_size - 1) / batch_size
  (List.range n_batch).foldl
    (fun F step =>
      let b := step * batch_size
      let e := min ((step + 1) * batch_size) n_examples
      let refer_batch := (references.drop b).take (e - b)
      let candi_batch := (candidates.drop b).take (e - b)
      F ++ (bert_score tok model refer_batch candi_batch idf rescale_base).2.2)
    []

/-- Python exception outcomes relevant to `BERTScore.__init__`. -/
inductive PyError where
  | valueError : String → PyError
  | nameError : String → PyError
deriving DecidableEq

/-- The names bound in the scope of `BERTScore.__init__` (score.py lines
249-259): the method's parameters and `self`.  Note that `tokenizer` is not
among them: the tokenizer is stored as the attribute `self.tokenizer`. -/
def initLocalNames : List String :=
  ["self", "model_name_or_path", "best_layer", "idf_path", "rescale_base"]

/-- Evaluation of the f-string in the `raise ValueError(...)` at score.py line
257.  The f-string interpolates `len(tokenizer)`, reading the bare name
`tokenizer`; that name is not bound in the method (nor at module level), so
Python raises `NameError` while building the message, before the `ValueError`
is constructed. -/
def mismatchMessage (vocab idfLen : ℕ) : Except PyError String :=
  if "tokenizer" ∈ initLocalNames then
    Except.ok ("len(tokenizer)=" ++ toString vocab ++ ", len(idf)=" ++ toString idfLen)
  else Except.error (PyError.nameError "tokenizer")

/-- `load_idf` (score.py lines 303-309), size part: the IDF file is a list of
lines, one weight per line; `idf.weight.size()[0]` is the number of lines. -/
def load_idf_weight (lines : List ℝ) : List ℝ := lines

/-- `BERTScore.__init__` (score.py lines 249-259), restricted to the IDF
configuration it performs: when an IDF resource is given, load it, and if
`len(self.tokenizer)` differs from the table size, raise; the raised exception
is whatever evaluating the message produces (see `mismatchMessage`).  On
success the scorer's IDF table (or `none`) is returned. -/
def BERTScore_init (vocab_size : ℕ) (idf_lines : Option (List ℝ)) :
    Except PyError (Option (List ℝ)) :=
  match idf_lines with
  | none => Except.ok none
  | some lines =>
      let idf := load_idf_weight lines
      if vocab_size ≠ idf.length then
        match mismatchMessage vocab_size idf.length with
        | Except.ok msg => Except.error (PyError.valueError msg)
        | Except.error e => Except.error e
      else Except.ok (some idf)

/-! ### Reference (spec-side) per-pair scoring

`pairRPF` is the specification's "batch of size 1" score of a single
reference/candidate pair, written directly from §4.1-§4.3 of the spec with the
source's choice of candidate-side weight (the attention mask).  It is used to
state batch-size invariance: a batched run agrees with mapping `pairRPF` over
the pairs. -/

/-- The content-mask row of one (unpadded) token sequence: 1 exactly where the
token is real and neither the cls nor the sep marker. -/
def contentMaskRow (tok : Tokenizer) (t : List ℕ) : List ℝ :=
  List.zipWith
    (fun i a => if i = tok.cls_token_id then 0 else if i = tok.sep_token_id then 0 else a)
    t (List.replicate t.length (1 : ℝ))

/-- Per-sentence-pair similarity matrix: normalize both token-vector lists and
take all pairwise dot products. -/
def pairSim (rE cE : List (List ℝ)) : List (List ℝ) :=
  (rE.map normalizeRow).map (fun u => (cE.map normalizeRow).map (fun v => dotL u v))

/-- Rescaled row maxima of one similarity matrix. -/
def pairR_max (m : List (List ℝ)) (base : ℝ) : List ℝ :=
  (m.map listMax).map (fun s => (s - base) / (1 - base))

/-- Rescaled column maxima of one similarity matrix. -/
def pairP_max (m : List (List ℝ)) (base : ℝ) : List ℝ :=
  ((List.range (numCols m)).map (colMax m)).map (fun s => (s - base) / (1 - base))

/-- Weight-mask-weighted average of a score row. -/
def wavg (s w : List ℝ) : ℝ := dotL s w / w.sum

/-- Per-pair score triple for a single reference/candidate sentence pair,
computed with no padding (the pair alone in its batch), given the row-wise
encoder function `f`.  The candidate side is weighted by the attention mask
(all ones over the unpadded tokens), matching score.py line 53. -/
def pairRPF (tok : Tokenizer) (f : List ℕ → List ℝ → List (List ℝ))
    (idf : Option (ℕ → ℝ)) (base : ℝ) (p : String × String) : ℝ × ℝ × ℝ :=
  let tr := tok.encode p.1
  let tc := tok.encode p.2
  let m := pairSim (f tr (List.replicate tr.length 1)) (f tc (List.replicate tc.length 1))
  let rw := match idf with
    | some w => tr.map w
    | none => contentMaskRow tok tr
  let cw := match idf with
    | some w => tc.map w
    | none => List.replicate tc.length (1 : ℝ)
  let R := wavg (pairR_max m base) rw
  let P := wavg (pairP_max m base) cw
  (R, P, 2 * (R * P) / (R + P))

/-! ### Concrete instantiations used by counterexamples and failing inputs -/

/-- Concrete token-id-to-embedding assignment; every vector is unit-length so
all the square roots in the normalization evaluate to `Real.sqrt 1`. -/
def embFn (id : ℕ) : List ℝ :=
  if id = 3 then [0, 1]
  else if id = 4 then [3/5, 4/5]
  else if id = 7 then [3/5, 4/5]
  else if id = 101 then [0, 1]
  else if id = 102 then [0, 1]
  else [1, 0]

/-- Concrete tokenizer: "x" and "y" tokenize with cls/sep markers (ids 101 and
102); "a", "bb", "c" tokenize to marker-free sequences of lengths 1, 2, 1. -/
def exTok : Tokenizer where
  encode := fun s =>
    if s = "x" then [101, 5, 102]
    else if s = "y" then [101, 7, 102]
    else if s = "a" then [1]
    else if s = "bb" then [2, 3]
    else if s = "c" then [4]
    else [9]
  cls_token_id := 101
  sep_token_id := 102
  pad_token_id := 0
  vocab_size := 103

/-- Row function of the concrete encoder: each token id is embedded by
`embFn`, independently of the attention row. -/
def exRowF (idrow : List ℕ) (_attnrow : List ℝ) : List (List ℝ) := idrow.map embFn

/-- Concrete encoder: processes every batch row independently via `exRowF`. -/
def exModel : EncoderT := fun ids attn => List.zipWith exRowF ids attn

end

/-! ### Helper lemmas about the row primitives -/

theorem dotL_nil_left (v : List ℝ) : dotL [] v = 0 := rfl

theorem dotL_nil_right (u : List ℝ) : dotL u [] = 0 := by
  cases u <;> rfl

theorem dotL_cons (x y : ℝ) (u v : List ℝ) :
    dotL (x :: u) (y :: v) = x * y + dotL u v := by
  simp [dotL]

theorem dotL_self_nonneg (v : List ℝ) : 0 ≤ dotL v v := by
  induction v with
  | nil => simp [dotL]
  | cons x xs ih => rw [dotL_cons]; exact add_nonneg (mul_self_nonneg x) ih

theorem dotL_map_div (u v : List ℝ) (a b : ℝ) :
    dotL (u.map (fun x => x / a)) (v.map (fun x => x / b)) = dotL u v / (a * b) := by
  induction u generalizing v with
  | nil => simp [dotL]
  | cons x xs ih =>
      cases v with
      | nil => simp [dotL]
      | cons y ys =>
          simp only [List.map_cons, dotL_cons, ih]
          rw [div_mul_div_comm, div_add_div_same]

theorem cs_step (x y A B D : ℝ) (hA : 0 ≤ A) (hB : 0 ≤ B) (hD : D ^ 2 ≤ A * B) :
    (x * y + D) ^ 2 ≤ (x ^ 2 + A) * (y ^ 2 + B) := by
  have key : 0 ≤ x ^ 2 * B + y ^ 2 * A - 2 * (x * y) * D := by
    rcases le_or_lt (x ^ 2 * B + y ^ 2 * A + 2 * (x * y) * D) 0 with h | h
    · nlinarith [mul_nonneg (mul_nonneg (sq_nonneg x) (sq_nonneg y)) (sub_nonneg.2 hD),
        mul_nonneg (sq_nonneg x) hB, mul_nonneg (sq_nonneg y) hA]
    · nlinarith [sq_nonneg (x ^ 2 * B - y ^ 2 * A),
        mul_nonneg (mul_nonneg (sq_nonneg x) (sq_nonneg y)) (sub_nonneg.2 hD)]
  nlinarith [key, hD]

theorem listCS (u v : List ℝ) : (dotL u v) ^ 2 ≤ dotL u u * dotL v v := by
  induction u generalizing v with
  | nil => simp [dotL]
  | cons x xs ih =>
      cases v with
      | nil =>
          simp only [dotL_nil_right]
          simp [dotL]
      | cons y ys =>
          simp only [dotL_cons]
          have h := ih ys
          calc (x * y + dotL xs ys) ^ 2
              ≤ (x * x + dotL xs xs) * (y * y + dotL ys ys) := by
                have := cs_step x y (dotL xs xs) (dotL ys ys) (dotL xs ys)
                  (dotL_self_nonneg xs) (dotL_self_nonneg ys) (by simpa using h)
                simpa [pow_two] using this
            _ = (x * x + dotL xs xs) * (y * y + dotL ys ys) := rfl

theorem dotL_le_norm_mul (u v : List ℝ) : dotL u v ≤ rowNorm u * rowNorm v := by
  have h2 : (dotL u v) ^ 2 ≤ dotL u u * dotL v v := listCS u v
  calc dotL u v ≤ |dotL u v| := le_abs_self _
    _ = Real.sqrt ((dotL u v) ^ 2) := (Real.sqrt_sq_eq_abs _).symm
    _ ≤ Real.sqrt (dotL u u * dotL v v) := Real.sqrt_le_sqrt h2
    _ = rowNorm u * rowNorm v := by
        rw [rowNorm, rowNorm, Real.sqrt_mul (dotL_self_nonneg u)]

theorem rowNorm_nonneg (v : List ℝ) : 0 ≤ rowNorm v := Real.sqrt_nonneg _

theorem dotL_normalize (u v : List ℝ) :
    dotL (normalizeRow u) (normalizeRow v) = dotL u v / (rowNorm u * rowNorm v) := by
  simp only [normalizeRow]
  exact dotL_map_div u v (rowNorm u) (rowNorm v)

theorem cos_le_one (u v : List ℝ) : dotL (normalizeRow u) (normalizeRow v) ≤ 1 := by
  rw [dotL_normalize]
  rcases eq_or_lt_of_le (mul_nonneg (rowNorm_nonneg u) (rowNorm_nonneg v)) with h | h
  · rw [← h, div_zero]; norm_num
  · exact (div_le_one h).2 (dotL_le_norm_mul u v)

theorem cos_self (v : List ℝ) (h : dotL v v ≠ 0) :
    dotL (normalizeRow v) (normalizeRow v) = 1 := by
  rw [dotL_normalize, rowNorm, Real.mul_self_sqrt (dotL_self_nonneg v), div_self h]

theorem foldl_max_facts (xs : List ℝ) (a : ℝ) :
    a ≤ xs.foldl max a ∧ (∀ x ∈ xs, x ≤ xs.foldl max a) ∧ xs.foldl max a ∈ a :: xs := by
  induction xs generalizing a with
  | nil => simp
  | cons x xs ih =>
      obtain ⟨h1, h2, h3⟩ := ih (max a x)
      refine ⟨le_trans (le_max_left a x) h1, ?_, ?_⟩
      · intro y hy
        have hy' : y = x ∨ y ∈ xs := List.mem_cons.mp hy
        simp only [List.foldl_cons]
        rcases hy' with h | h
        · rw [h]; exact le_trans (le_max_right a x) h1
        · exact h2 _ h
      · rcases List.mem_cons.mp h3 with h3 | h3
        · rcases max_choice a x with hax | hax <;> rw [List.foldl_cons, h3, hax] <;> simp
        · simp only [List.foldl_cons]
          exact List.mem_cons_of_mem _ (List.mem_cons_of_mem _ h3)

theorem le_listMax (l : List ℝ) (x : ℝ) (hx : x ∈ l) : x ≤ listMax l := by
  cases l with
  | nil => cases hx
  | cons a as =>
      rw [listMax]
      rcases List.mem_cons.mp hx with rfl | hx
      · exact (foldl_max_facts as _).1
      · exact (foldl_max_facts as a).2.1 _ hx

theorem listMax_mem (l : List ℝ) (h : l ≠ []) : listMax l ∈ l := by
  cases l with
  | nil => exact absurd rfl h
  | cons a as => rw [listMax]; exact (foldl_max_facts as a).2.2

theorem listMax_le (l : List ℝ) (c : ℝ) (h : l ≠ []) (hall : ∀ x ∈ l, x ≤ c) :
    listMax l ≤ c := hall _ (listMax_mem l h)

theorem listMax_eq_of (l : List ℝ) (c : ℝ) (hc : c ∈ l) (hall : ∀ x ∈ l, x ≤ c) :
    listMax l = c :=
  le_antisymm (listMax_le l c (by rintro rfl; cases hc) hall) (le_listMax l c hc)

/-! ### Sum and dot product versus indexed sums -/

theorem sum_eq_range_getD (l : List ℝ) :
    l.sum = ∑ i ∈ Finset.range l.length, l.getD i 0 := by
  induction l with
  | nil => simp
  | cons x xs ih =>
      rw [List.sum_cons, ih, List.length_cons, Finset.sum_range_succ']
      simp [List.getD]
      ring

theorem dotL_eq_sum_range (u v : List ℝ) (h : u.length = v.length) :
    dotL u v = ∑ i ∈ Finset.range u.length, u.getD i 0 * v.getD i 0 := by
  induction u generalizing v with
  | nil => simp [dotL]
  | cons x xs ih =>
      cases v with
      | nil => simp at h
      | cons y ys =>
          rw [dotL_cons, ih ys (by simpa using h), List.length_cons, Finset.sum_range_succ']
          simp [List.getD]
          ring

theorem dotL_replicate_right (s : List ℝ) (c : ℝ) (n : ℕ) (h : s.length = n) :
    dotL s (List.replicate n c) = c * s.sum := by
  induction s generalizing n with
  | nil => simp [dotL]
  | cons x xs ih =>
      cases n with
      | zero => simp at h
      | succ m =>
          rw [List.replicate_succ, dotL_cons, ih m (by simpa using h), List.sum_cons]
          ring

theorem dotL_replicate_one_left (w : List ℝ) (n : ℕ) (h : w.length = n) :
    dotL (List.replicate n (1 : ℝ)) w = w.sum := by
  induction w generalizing n with
  | nil => simp [dotL]
  | cons x xs ih =>
      cases n with
      | zero => simp at h
      | succ m =>
          rw [List.replicate_succ, dotL_cons, ih m (by simpa using h), List.sum_cons]
          ring

/-! ### zipWith / map / zip fusion helpers -/

theorem zipWith_map_same {α β γ δ : Type} (f : β → γ → δ) (u : α → β) (v : α → γ)
    (l : List α) :
    List.zipWith f (l.map u) (l.map v) = l.map (fun x => f (u x) (v x)) := by
  rw [List.zipWith_map, List.zipWith_same]

theorem zipWith_map_zip {α β γ δ ε : Type} (f : γ → δ → ε) (u : α → γ) (v : β → δ)
    (as : List α) (bs : List β) :
    List.zipWith f (as.map u) (bs.map v) = (as.zip bs).map (fun p => f (u p.1) (v p.2)) := by
  induction as generalizing bs with
  | nil => simp
  | cons a as ih =>
      cases bs with
      | nil => simp
      | cons b bs => simp [ih]

theorem map_eq_map_fst_zip {α β γ : Type} (u : α → γ) (as : List α) (bs : List β)
    (h : as.length = bs.length) :
    as.map u = (as.zip bs).map (fun p => u p.1) := by
  conv_lhs => rw [← List.map_fst_zip as bs (le_of_eq h)]
  rw [List.map_map]
  rfl

theorem zip_drop {α β : Type} (as : List α) (bs : List β) (n : ℕ) :
    (as.drop n).zip (bs.drop n) = (as.zip bs).drop n := by
  induction n generalizing as bs with
  | zero => simp
  | succ m ih =>
      cases as with
      | nil => simp
      | cons a as =>
          cases bs with
          | nil => simp [List.zip_nil_right]
          | cons b bs => simpa using ih as bs

theorem zip_take {α β : Type} (as : List α) (bs : List β) (n : ℕ) :
    (as.take n).zip (bs.take n) = (as.zip bs).take n := by
  induction n generalizing as bs with
  | zero => simp
  | succ m ih =>
      cases as with
      | nil => simp
      | cons a as =>
          cases bs with
          | nil => simp [List.zip_nil_right]
          | cons b bs => simpa using ih as bs

/-! ### Batch chunking helpers for `BERTScore_score` -/

theorem foldl_append_eq_flatten {α : Type} (g : ℕ → List α) (L : List ℕ) (init : List α) :
    L.foldl (fun acc s => acc ++ g s) init = init ++ (L.map g).flatten := by
  induction L generalizing init with
  | nil => simp
  | cons s L ih => simp [ih, List.append_assoc]

theorem flatten_chunks {α : Type} (l : List α) (bs : ℕ) (hbs : 0 < bs) :
    ((List.range ((l.length + bs - 1) / bs)).map
      (fun s => (l.drop (s * bs)).take (min ((s + 1) * bs) l.length - s * bs))).flatten
      = l := by
  generalize hn : (l.length + bs - 1) / bs = n
  induction n generalizing l with
  | zero =>
      have hlen : l.length = 0 := by
        by_contra hne
        have h1 : 1 ≤ (l.length + bs - 1) / bs := by
          apply Nat.le_div_iff_mul_le hbs |>.2
          omega
        omega
      simp [List.eq_nil_of_length_eq_zero hlen]
  | succ m ih =>
      have hpos : 0 < l.length := by
        by_contra hne
        have : l.length = 0 := by omega
        rw [this] at hn
        rw [Nat.div_eq_of_lt (by omega)] at hn
        omega
      rw [List.range_succ_eq_map, List.map_cons, List.flatten_cons]
      simp only [Nat.zero_mul, Nat.zero_add, List.drop_zero, Nat.one_mul, Nat.sub_zero]
      rcases le_or_lt l.length bs with hle | hlt
      · -- single final chunk
        have hm : m = 0 := by
          have h1 : (l.length + bs - 1) / bs = 1 := by
            apply Nat.div_eq_of_lt_le (by omega) (by omega)
          omega
        subst hm
        simp [min_eq_right hle]
      · -- first chunk of size bs, then recurse on the dropped list
        have hmin : min bs l.length = bs := min_eq_left (le_of_lt hlt)
        have hdrop : ((l.drop bs).length + bs - 1) / bs = m := by
          have hlen : (l.drop bs).length = l.length - bs := List.length_drop bs l
          have e2 : l.length + bs - 1 = (l.length - 1) + bs := by omega
          rw [e2, Nat.add_div_right _ hbs] at hn
          have e3 : (l.drop bs).length + bs - 1 = l.length - 1 := by rw [hlen]; omega
          rw [e3]
          omega
        have ihd := ih (l.drop bs) hdrop
        rw [hmin]
        have hmap : ∀ s : ℕ,
            ((l.drop ((Nat.succ s) * bs)).take (min ((Nat.succ s + 1) * bs) l.length
              - Nat.succ s * bs))
            = ((l.drop bs).drop (s * bs)).take
                (min ((s + 1) * bs) (l.drop bs).length - s * bs) := by
          intro s
          have e1 : Nat.succ s * bs = s * bs + bs := Nat.succ_mul s bs
          have e2 : (Nat.succ s + 1) * bs = s * bs + bs + bs := by
            rw [Nat.add_mul, Nat.succ_mul, Nat.one_mul]
          rw [List.drop_drop, List.length_drop, e1, e2, Nat.add_comm bs (s * bs)]
          congr 1
          omega
        calc l.take bs ++ (((List.range m).map Nat.succ).map
              (fun s => (l.drop (s * bs)).take (min ((s + 1) * bs) l.length - s * bs))).flatten
            = l.take bs ++ ((List.range m).map
              (fun s => ((l.drop bs).drop (s * bs)).take
                (min ((s + 1) * bs) (l.drop bs).length - s * bs))).flatten := by
              rw [List.map_map]
              congr 1
              congr 1
              apply List.map_congr_left
              intro s _
              exact hmap s
          _ = l.take bs ++ l.drop bs := by rw [ihd]
          _ = l := List.take_append_drop bs l

theorem map_eq_map_snd_zip {α β γ : Type} (v : β → γ) (as : List α) (bs : List β)
    (h : as.length = bs.length) :
    bs.map v = (as.zip bs).map (fun p => v p.2) := by
  conv_lhs => rw [← List.map_snd_zip as bs (le_of_eq h.symm)]
  rw [List.map_map]
  rfl

theorem batch_max_len_le (ls : List (List ℕ)) (L : ℕ) (h : ∀ t ∈ ls, t.length ≤ L) :
    batch_max_len ls ≤ L := by
  induction ls with
  | nil => exact Nat.zero_le L
  | cons t ts ih =>
      unfold batch_max_len
      rw [List.foldr_cons]
      exact max_le (h t (List.mem_cons_self t ts))
        (ih (fun u hu => h u (List.mem_cons_of_mem t hu)))

theorem pad_to_of_le (k : ℕ) (p : ℕ) (l : List ℕ) (h : k ≤ l.length) :
    pad_to k p l = l := by
  unfold pad_to
  rw [Nat.sub_eq_zero_of_le h, List.replicate_zero, List.append_nil]

/-- When every sentence of the batch tokenizes to the same length `L`, the
padding in `sents_to_tensor` is vacuous and each output row depends only on
its own sentence. -/
theorem sents_to_tensor_uniform (tok : Tokenizer) (sents : List String) (L : ℕ)
    (hL : ∀ s ∈ sents, (tok.encode s).length = L) :
    sents_to_tensor tok sents =
      (sents.map tok.encode,
       sents.map (fun s => List.replicate (tok.encode s).length (1 : ℝ)),
       sents.map (fun s => contentMaskRow tok (tok.encode s))) := by
  have hmax : batch_max_len (sents.map tok.encode) ≤ L := by
    apply batch_max_len_le
    intro t ht
    rcases List.mem_map.mp ht with ⟨s, hs, rfl⟩
    exact le_of_eq (hL s hs)
  have hids : (sents.map tok.encode).map
      (pad_to (batch_max_len (sents.map tok.encode)) tok.pad_token_id)
      = sents.map tok.encode := by
    rw [List.map_map]
    apply List.map_congr_left
    intro s hs
    exact pad_to_of_le _ _ _ (by rw [hL s hs]; exact hmax)
  have hattn : (sents.map tok.encode).map
      (fun t => List.replicate t.length (1 : ℝ)
        ++ List.replicate (batch_max_len (sents.map tok.encode) - t.length) 0)
      = sents.map (fun s => List.replicate (tok.encode s).length (1 : ℝ)) := by
    rw [List.map_map]
    apply List.map_congr_left
    intro s hs
    show List.replicate (tok.encode s).length (1 : ℝ)
        ++ List.replicate (batch_max_len (sents.map tok.encode)
          - (tok.encode s).length) 0
      = List.replicate (tok.encode s).length (1 : ℝ)
    have h0 : batch_max_len (sents.map tok.encode) - (tok.encode s).length = 0 := by
      rw [hL s hs]
      omega
    rw [h0, List.replicate_zero, List.append_nil]
  unfold sents_to_tensor
  dsimp only
  rw [hids, hattn, zipWith_map_same]
  rfl

/-- `compute_RPF` on batches whose every tensor is a per-element map acts as a
per-pair map over the zipped batches: no cross-element interaction. -/
theorem compute_RPF_map {σ τ : Type}
    (rE : σ → List (List ℝ)) (cE : τ → List (List ℝ))
    (rWm : σ → List ℝ) (cWm : τ → List ℝ)
    (rI : σ → List ℕ) (cI : τ → List ℕ)
    (idf : Option (ℕ → ℝ)) (base : ℝ)
    (as : List σ) (bs : List τ) (hlen : as.length = bs.length) :
    compute_RPF (as.map rE) (bs.map cE) (as.map rWm) (bs.map cWm)
        (some (as.map rI)) (some (bs.map cI)) idf base =
      ((as.zip bs).map (fun p =>
          wavg (pairR_max (pairSim (rE p.1) (cE p.2)) base)
            (match idf with | some w => (rI p.1).map w | none => rWm p.1)),
       (as.zip bs).map (fun p =>
          wavg (pairP_max (pairSim (rE p.1) (cE p.2)) base)
            (match idf with | some w => (cI p.2).map w | none => cWm p.2)),
       (as.zip bs).map (fun p =>
          2 * (wavg (pairR_max (pairSim (rE p.1) (cE p.2)) base)
              (match idf with | some w => (rI p.1).map w | none => rWm p.1)
            * wavg (pairP_max (pairSim (rE p.1) (cE p.2)) base)
              (match idf with | some w => (cI p.2).map w | none => cWm p.2))
          / (wavg (pairR_max (pairSim (rE p.1) (cE p.2)) base)
              (match idf with | some w => (rI p.1).map w | none => rWm p.1)
            + wavg (pairP_max (pairSim (rE p.1) (cE p.2)) base)
              (match idf with | some w => (cI p.2).map w | none => cWm p.2)))) := by
  have hpc : compute_pairwise_cosine (as.map rE) (bs.map cE)
      = (as.zip bs).map (fun p => pairSim (rE p.1) (cE p.2)) := by
    unfold compute_pairwise_cosine
    rw [List.map_map, List.map_map, zipWith_map_zip]
    rfl
  have hRmax : ∀ m : List (List (List ℝ)), R_max_of m = m.map (fun x => x.map listMax) := by
    intro m; rfl
  cases idf with
  | none =>
      unfold compute_RPF
      dsimp only
      rw [hpc]
      unfold R_max_of P_max_of rescaling
      rw [List.map_map, List.map_map, List.map_map, List.map_map]
      rw [map_eq_map_fst_zip rWm as bs hlen, map_eq_map_snd_zip cWm as bs hlen]
      rw [zipWith_map_same, zipWith_map_same, zipWith_map_same]
      rfl
  | some w =>
      unfold compute_RPF
      dsimp only
      rw [hpc]
      unfold R_max_of P_max_of rescaling apply_idf
      rw [List.map_map, List.map_map, List.map_map, List.map_map,
        List.map_map, List.map_map]
      rw [map_eq_map_fst_zip ((fun row => List.map w row) ∘ rI) as bs hlen,
        map_eq_map_snd_zip ((fun row => List.map w row) ∘ cI) as bs hlen]
      rw [zipWith_map_same, zipWith_map_same, zipWith_map_same]
      rfl

/-- `bert_score` on a batch in which every reference tokenizes to length `Lr`,
every candidate to length `Lc`, and the encoder processes batch rows
independently, equals the per-pair map of `pairRPF` over the zipped pairs. -/
theorem bert_score_eq_map_pairRPF (tok : Tokenizer) (model : EncoderT)
    (f : List ℕ → List ℝ → List (List ℝ))
    (idf : Option (ℕ → ℝ)) (base : ℝ) (refs cands : List String) (Lr Lc : ℕ)
    (hmodel : ∀ ids attn, model ids attn = List.zipWith f ids attn)
    (hlen : refs.length = cands.length)
    (hLr : ∀ s ∈ refs, (tok.encode s).length = Lr)
    (hLc : ∀ s ∈ cands, (tok.encode s).length = Lc) :
    bert_score tok model refs cands idf base =
      ((refs.zip cands).map (fun p => (pairRPF tok f idf base p).1),
       (refs.zip cands).map (fun p => (pairRPF tok f idf base p).2.1),
       (refs.zip cands).map (fun p => (pairRPF tok f idf base p).2.2)) := by
  unfold bert_score bert_forwarding
  rw [sents_to_tensor_uniform tok refs Lr hLr, sents_to_tensor_uniform tok cands Lc hLc]
  dsimp only
  rw [hmodel, hmodel, zipWith_map_same, zipWith_map_same]
  rw [compute_RPF_map
    (fun s => f (tok.encode s) (List.replicate (tok.encode s).length 1))
    (fun s => f (tok.encode s) (List.replicate (tok.encode s).length 1))
    (fun s => contentMaskRow tok (tok.encode s))
    (fun s => List.replicate (tok.encode s).length (1 : ℝ))
    tok.encode tok.encode idf base refs cands hlen]
  cases idf with
  | none => rfl
  | some w => rfl

/-! ### getD access helpers -/

theorem getD_map {α β : Type} (f : α → β) (l : List α) (i : ℕ) (d : β) (da : α)
    (h : i < l.length) : (l.map f).getD i d = f (l.getD i da) := by
  rw [List.getD_eq_getElem _ _ (by simpa), List.getD_eq_getElem _ _ h]
  simp

theorem getD_zipWith {α β γ : Type} (f : α → β → γ) (as : List α) (bs : List β)
    (i : ℕ) (d : γ) (da : α) (db : β) (ha : i < as.length) (hb : i < bs.length) :
    (List.zipWith f as bs).getD i d = f (as.getD i da) (bs.getD i db) := by
  rw [List.getD_eq_getElem _ _ (by simp [List.length_zipWith]; omega),
      List.getD_eq_getElem _ _ ha, List.getD_eq_getElem _ _ hb]
  simp [List.getElem_zipWith]

/-! ### Claim theorems -/

/-- C10: `compute_pairwise_cosine` destructively normalizes its two input
embedding tensors in place (the `div_` calls at score.py lines 191-196): in
the state-passing model, the caller's buffers after the call hold the
row-normalized tensors rather than the original values.  On the concrete
buffer `[[[3, 4]]]` the post-state is `[[[3/5, 4/5]]]`, which differs from the
input and has unit-norm rows. -/
theorem C10_normalization_mutates_buffers :
    (∀ re ce : List (List (List ℝ)),
        (compute_pairwise_cosine_state re ce).1 = re.map (fun s => s.map normalizeRow) ∧
        (compute_pairwise_cosine_state re ce).2.1 = ce.map (fun s => s.map normalizeRow)) ∧
    (compute_pairwise_cosine_state [[[3, 4]]] [[[3, 4]]]).1 = [[[3/5, 4/5]]] ∧
    ([[[(3 : ℝ)/5, 4/5]]] : List (List (List ℝ))) ≠ [[[3, 4]]] ∧
    rowNorm [3/5, 4/5] = 1 := by
  have h25 : Real.sqrt 25 = 5 := by
    rw [show (25 : ℝ) = 5 ^ 2 by norm_num, Real.sqrt_sq (by norm_num : (0:ℝ) ≤ 5)]
  refine ⟨fun re ce => ⟨rfl, rfl⟩, ?_, ?_, ?_⟩
  · simp [compute_pairwise_cosine_state, normalizeRow, rowNorm, dotL]
    norm_num [h25]
  · intro h
    rw [List.cons.injEq, List.cons.injEq, List.cons.injEq] at h
    exact absurd h.1.1.1 (by norm_num)
  · simp [rowNorm, dotL]
    norm_num [Real.sqrt_one]

/-- C7: the normalization in `compute_pairwise_cosine` has no epsilon guard:
an all-zero row is divided elementwise by its own zero norm.  In this exact
model the row stays zero (and its norm stays 0, not 1); under IEEE-754
semantics the very same `0/0` divisions produce NaN, contradicting the claim
that normalization never silently produces NaN on a zero vector.  A nonzero
row such as `[3, 4]` is correctly rescaled to unit norm. -/
theorem C7_bug_zero_vector_unguarded_normalization :
    normalizeRow [0, 0] = [0, 0] ∧
    rowNorm (normalizeRow [0, 0]) = 0 ∧
    rowNorm (normalizeRow [3, 4]) = 1 := by
  have h25 : Real.sqrt 25 = 5 := by
    rw [show (25 : ℝ) = 5 ^ 2 by norm_num, Real.sqrt_sq (by norm_num : (0:ℝ) ≤ 5)]
  refine ⟨?_, ?_, ?_⟩
  · simp [normalizeRow, rowNorm, dotL]
  · simp [normalizeRow, rowNorm, dotL]
  · simp [normalizeRow, rowNorm, dotL]
    norm_num [h25, Real.sqrt_one]

/-- C8: an IDF table whose line count differs from the tokenizer vocabulary
size does make `BERTScore.__init__` fail immediately, but not with the claimed
`ValueError`: evaluating the error message's f-string reads the unbound name
`tokenizer` (score.py line 257; the local is `self.tokenizer`), so the
construction raises `NameError` instead.  A table of matching size constructs
successfully, as does construction without an IDF table. -/
theorem C8_bug_mismatch_raises_nameError :
    BERTScore_init 3 (some [0, 0]) = Except.error (PyError.nameError "tokenizer") ∧
    (∀ msg : String,
      BERTScore_init 3 (some [0, 0]) ≠ Except.error (PyError.valueError msg)) ∧
    BERTScore_init 3 (some [0, 0, 0]) = Except.ok (some [0, 0, 0]) ∧
    BERTScore_init 3 none = Except.ok none := by
  refine ⟨?_, ?_, ?_, rfl⟩
  · simp [BERTScore_init, mismatchMessage, initLocalNames, load_idf_weight]
  · intro msg
    simp [BERTScore_init, mismatchMessage, initLocalNames, load_idf_weight]
  · simp [BERTScore_init, load_idf_weight]

/-- C1: failing input for the claim that `bert_score` aggregates the precision
side over the candidate ContentMask.  With reference "x" (tokens
`[101, 5, 102]`) and candidate "y" (tokens `[101, 7, 102]`), the recall side
is indeed ContentMask-weighted (R = 3/5), but `bert_score` passes
`candi_attention_mask` at score.py line 53, giving P = 14/15 — the average of
the column maxima `[1, 4/5, 1]` over all three attended positions — whereas
the ContentMask aggregation the claim asserts yields 4/5. -/
theorem C1_bug_precision_weighted_by_attention_mask :
    (bert_score exTok exModel ["x"] ["y"] none 0).1 = [3/5] ∧
    (bert_score exTok exModel ["x"] ["y"] none 0).2.1 = [14/15] ∧
    (compute_RPF (exModel (sents_to_tensor exTok ["x"]).1 (sents_to_tensor exTok ["x"]).2.1)
        (exModel (sents_to_tensor exTok ["y"]).1 (sents_to_tensor exTok ["y"]).2.1)
        (sents_to_tensor exTok ["x"]).2.2 (sents_to_tensor exTok ["y"]).2.2
        (some (sents_to_tensor exTok ["x"]).1) (some (sents_to_tensor exTok ["y"]).1)
        none 0).2.1 = [4/5] ∧
    (14 : ℝ)/15 ≠ 4/5 := by
  refine ⟨?_, ?_, ?_, by norm_num⟩ <;>
  · simp [bert_score, sents_to_tensor, exTok, exModel, exRowF, batch_max_len, pad_to,
      bert_forwarding, compute_RPF, compute_pairwise_cosine, R_max_of, P_max_of,
      normalizeRow, rowNorm, dotL, embFn, listMax, numCols, colMax, rescaling, apply_idf,
      max_def, Real.sqrt_one, List.range_succ, List.getD]
    norm_num

/-- C5: failing input for the symmetry claim.  Swapping the reference and
candidate lists does not swap Recall and Precision, and F1 changes, because
the candidate side of the aggregation is weighted by the attention mask while
the reference side is weighted by the content mask (score.py line 53).  For
the pair ("x", "y"): originally (R, P, F) = (3/5, 14/15, 84/115); after the
swap (R', P', F') = (4/5, 13/15, 104/125), so R' ≠ P, P' ≠ R, F' ≠ F. -/
theorem C5_bug_swap_does_not_swap_R_P :
    (bert_score exTok exModel ["x"] ["y"] none 0).1 = [3/5] ∧
    (bert_score exTok exModel ["x"] ["y"] none 0).2.1 = [14/15] ∧
    (bert_score exTok exModel ["x"] ["y"] none 0).2.2 = [84/115] ∧
    (bert_score exTok exModel ["y"] ["x"] none 0).1 = [4/5] ∧
    (bert_score exTok exModel ["y"] ["x"] none 0).2.1 = [13/15] ∧
    (bert_score exTok exModel ["y"] ["x"] none 0).2.2 = [104/125] ∧
    ([(4 : ℝ)/5] : List ℝ) ≠ [14/15] ∧
    ([(13 : ℝ)/15] : List ℝ) ≠ [3/5] ∧
    ([(104 : ℝ)/125] : List ℝ) ≠ [84/115] := by
  refine ⟨?_, ?_, ?_, ?_, ?_, ?_, by norm_num, by norm_num, by norm_num⟩ <;>
  · simp [bert_score, sents_to_tensor, exTok, exModel, exRowF, batch_max_len, pad_to,
      bert_forwarding, compute_RPF, compute_pairwise_cosine, R_max_of, P_max_of,
      normalizeRow, rowNorm, dotL, embFn, listMax, numCols, colMax, rescaling, apply_idf,
      max_def, Real.sqrt_one, List.range_succ, List.getD]
    norm_num

/-- C4 counterexample: a constant IDF table of weight 1 on every vocabulary id
does not reproduce the no-IDF results.  On the pair ("x", "y") the constant
table weights all padded positions — markers included — so R becomes the plain
average 13/15, while the no-IDF (content-mask) recall is 3/5. -/
theorem C4_counterexample_constant_idf_differs :
    (bert_score exTok exModel ["x"] ["y"] (some (fun _ => 1)) 0).1 = [13/15] ∧
    (bert_score exTok exModel ["x"] ["y"] none 0).1 = [3/5] ∧
    ([(13 : ℝ)/15] : List ℝ) ≠ [3/5] := by
  refine ⟨?_, ?_, by norm_num⟩ <;>
  · simp [bert_score, sents_to_tensor, exTok, exModel, exRowF, batch_max_len, pad_to,
      bert_forwarding, compute_RPF, compute_pairwise_cosine, R_max_of, P_max_of,
      normalizeRow, rowNorm, dotL, embFn, listMax, numCols, colMax, rescaling, apply_idf,
      max_def, Real.sqrt_one, List.range_succ, List.getD]
    norm_num

/-- C9 counterexample: `BERTScore.score` performs no length validation.  With
one reference and two candidates (unequal lengths), scoring proceeds through
tokenization, embedding and score computation, and returns the score `[1]` of
the first pair — the surplus candidate is silently ignored, and no validation
error precedes the computation. -/
theorem C9_counterexample_no_length_validation :
    BERTScore_score exTok exModel none 0 ["a"] ["a", "bb"] 128 = [1] ∧
    (["a", "bb"] : List String).length ≠ (["a"] : List String).length := by
  refine ⟨?_, by simp⟩
  simp [BERTScore_score, bert_score, sents_to_tensor, exTok, exModel, exRowF,
    batch_max_len, pad_to, bert_forwarding, compute_RPF, compute_pairwise_cosine,
    R_max_of, P_max_of, normalizeRow, rowNorm, dotL, embFn, listMax, numCols, colMax,
    rescaling, apply_idf, max_def, Real.sqrt_one, List.range_succ, List.getD]
  norm_num

/-- C3 counterexample: batch boundaries do affect individual scores.  The
similarity maxima run over padded candidate columns (no masking before the
`max` at score.py lines 154-155), and padding depends on the batch: scoring
the pairs ("a","c"), ("bb","bb") in one batch of size 2 pads "a" and "c" to
length 2 (the pad embedding matches "a"'s token exactly), giving F = [3/4, 1],
while two batches of size 1 have no padding and give F = [3/5, 1]. -/
theorem C3_counterexample_batch_size_changes_scores :
    BERTScore_score exTok exModel none 0 ["a", "bb"] ["c", "bb"] 2 = [3/4, 1] ∧
    BERTScore_score exTok exModel none 0 ["a", "bb"] ["c", "bb"] 1 = [3/5, 1] ∧
    ([(3 : ℝ)/4, 1] : List ℝ) ≠ [3/5, 1] := by
  refine ⟨?_, ?_, by norm_num⟩ <;>
  · simp [BERTScore_score, bert_score, sents_to_tensor, exTok, exModel, exRowF,
      batch_max_len, pad_to, bert_forwarding, compute_RPF, compute_pairwise_cosine,
      R_max_of, P_max_of, normalizeRow, rowNorm, dotL, embFn, listMax, numCols, colMax,
      rescaling, apply_idf, max_def, Real.sqrt_one, List.range_succ, List.getD]
    norm_num

/-- C9 amended: `BERTScore.score` performs no length validation at all.  The
reference list's length drives the batching, so surplus candidates are
silently ignored: scoring against any candidate list agrees with scoring
against its truncation to the reference list's length.  (A candidate list
shorter than the references instead fails later, inside batch processing,
with a tensor shape error — not with a prior validation error.) -/
theorem foldl_congr_fun {α β : Type} (f g : α → β → α) (init : α) (l : List β)
    (h : ∀ a b, f a b = g a b) : l.foldl f init = l.foldl g init := by
  induction l generalizing init with
  | nil => rfl
  | cons x xs ih => rw [List.foldl_cons, List.foldl_cons, h, ih]

theorem C9_amended_surplus_candidates_ignored (tok : Tokenizer) (model : EncoderT)
    (idf : Option (ℕ → ℝ)) (base : ℝ) (references candidates : List String)
    (batch_size : ℕ) :
    BERTScore_score tok model idf base references candidates batch_size =
    BERTScore_score tok model idf base references (candidates.take references.length)
      batch_size := by
  have key : ∀ b e : ℕ, e ≤ references.length →
      ((candidates.take references.length).drop b).take (e - b) =
        (candidates.drop b).take (e - b) := by
    intro b e he
    rw [List.drop_take, List.take_take]
    congr 1
    exact min_eq_left (Nat.sub_le_sub_right he _)
  unfold BERTScore_score
  refine (foldl_congr_fun _ _ _ _ ?_).symm
  intro acc step
  dsimp only
  rw [key _ _ (min_le_right _ _)]

theorem pairwise_getD (re ce : List (List (List ℝ))) (b : ℕ)
    (hbre : b < re.length) (hbce : b < ce.length) :
    (compute_pairwise_cosine re ce).getD b [] =
      ((re.getD b []).map normalizeRow).map
        (fun u => ((ce.getD b []).map normalizeRow).map (fun v => dotL u v)) := by
  unfold compute_pairwise_cosine
  rw [getD_zipWith _ _ _ b [] [] []
      (by simpa using hbre) (by simpa using hbce),
    getD_map _ _ _ _ [] hbre, getD_map _ _ _ _ [] hbce]

/-- C4 amended: with a constant nonzero IDF weight `c`, `compute_RPF` replaces
both weight masks by the constant `c` at every padded position (pads and
cls/sep markers included), so Recall and Precision become the plain averages
of the rescaled max-scores over all `K_ref` (resp. `K_cand`) positions —
independent of `c`, and equal to the no-IDF content-mask weighting only when
the content mask covers every position.  (The counterexample shows they differ
in general.) -/
theorem C4_amended_constant_idf_plain_average
    (re ce : List (List (List ℝ))) (rwm cwm : List (List ℝ))
    (rids cids : List (List ℕ)) (c base : ℝ) (b : ℕ)
    (hc : c ≠ 0) (hbre : b < re.length) (hbce : b < ce.length)
    (hbr : b < rids.length) (hbc : b < cids.length)
    (hKr : (rids.getD b []).length = (re.getD b []).length)
    (hKc : (cids.getD b []).length = (ce.getD b []).length)
    (hKr0 : 0 < (re.getD b []).length) :
    (compute_RPF re ce rwm cwm (some rids) (some cids) (some (fun _ => c)) base).1.getD b 0
      = (((R_max_of (compute_pairwise_cosine re ce)).getD b []).map
          (fun s => (s - base) / (1 - base))).sum / ((re.getD b []).length : ℝ) ∧
    (compute_RPF re ce rwm cwm (some rids) (some cids) (some (fun _ => c)) base).2.1.getD b 0
      = (((P_max_of (compute_pairwise_cosine re ce)).getD b []).map
          (fun s => (s - base) / (1 - base))).sum / ((ce.getD b []).length : ℝ) := by
  set pc := compute_pairwise_cosine re ce with hpc
  have hpc_len : pc.length = min re.length ce.length := by
    simp [hpc, compute_pairwise_cosine]
  have hbpc : b < pc.length := by rw [hpc_len]; omega
  have hpcb := pairwise_getD re ce b hbre hbce
  have hpcb_len : (pc.getD b []).length = (re.getD b []).length := by
    rw [hpcb]; simp
  have hrowlen : ∀ row ∈ pc.getD b [], row.length = (ce.getD b []).length := by
    rw [hpcb]
    intro row hrow
    rcases List.mem_map.mp hrow with ⟨u, _, rfl⟩
    simp
  constructor
  · -- Recall side
    show (List.zipWith (fun s w => dotL s w / w.sum)
        (rescaling (R_max_of pc) base) (apply_idf rids (fun _ => c))).getD b 0 = _
    rw [getD_zipWith _ _ _ b 0 [] []
        (by simp only [rescaling, R_max_of, List.length_map]; exact hbpc)
        (by simp only [apply_idf, List.length_map]; exact hbr)]
    have h1 : (rescaling (R_max_of pc) base).getD b [] =
        ((R_max_of pc).getD b []).map (fun s => (s - base) / (1 - base)) := by
      unfold rescaling
      exact getD_map _ _ _ _ []
        (by simp only [R_max_of, List.length_map]; exact hbpc)
    have h2 : (apply_idf rids (fun _ => c)).getD b [] =
        List.replicate (re.getD b []).length c := by
      unfold apply_idf
      rw [getD_map _ _ _ _ [] hbr, List.map_const', hKr]
    have hRb : (R_max_of pc).getD b [] = (pc.getD b []).map listMax := by
      unfold R_max_of
      exact getD_map _ _ _ _ [] hbpc
    rw [h1, h2]
    have hslen : (((R_max_of pc).getD b []).map
        (fun s => (s - base) / (1 - base))).length = (re.getD b []).length := by
      rw [hRb, List.length_map, List.length_map, hpcb_len]
    rw [dotL_replicate_right _ c _ hslen, List.sum_replicate, nsmul_eq_mul,
      mul_comm ((re.getD b []).length : ℝ) c, mul_div_mul_left _ _ hc]
  · -- Precision side
    show (List.zipWith (fun s w => dotL s w / w.sum)
        (rescaling (P_max_of pc) base) (apply_idf cids (fun _ => c))).getD b 0 = _
    rw [getD_zipWith _ _ _ b 0 [] []
        (by simp only [rescaling, P_max_of, List.length_map]; exact hbpc)
        (by simp only [apply_idf, List.length_map]; exact hbc)]
    have h1 : (rescaling (P_max_of pc) base).getD b [] =
        ((P_max_of pc).getD b []).map (fun s => (s - base) / (1 - base)) := by
      unfold rescaling
      exact getD_map _ _ _ _ []
        (by simp only [P_max_of, List.length_map]; exact hbpc)
    have h2 : (apply_idf cids (fun _ => c)).getD b [] =
        List.replicate (ce.getD b []).length c := by
      unfold apply_idf
      rw [getD_map _ _ _ _ [] hbc, List.map_const', hKc]
    rw [h1, h2]
    have hnumcols : numCols (pc.getD b []) = (ce.getD b []).length := by
      unfold numCols
      have hne : pc.getD b [] ≠ [] := by
        intro h
        rw [h] at hpcb_len
        simp only [List.length_nil] at hpcb_len
        omega
      cases hh : pc.getD b [] with
      | nil => exact absurd hh hne
      | cons r rs =>
          simp only [List.headD_cons]
          exact hrowlen r (hh ▸ List.mem_cons_self r rs)
    have hPb : (P_max_of pc).getD b [] =
        (List.range (numCols (pc.getD b []))).map (colMax (pc.getD b [])) := by
      unfold P_max_of
      exact getD_map _ _ _ _ [] hbpc
    have hslen : (((P_max_of pc).getD b []).map
        (fun s => (s - base) / (1 - base))).length = (ce.getD b []).length := by
      rw [hPb, List.length_map, List.length_map, List.length_range, hnumcols]
    rw [dotL_replicate_right _ c _ hslen, List.sum_replicate, nsmul_eq_mul,
      mul_comm ((ce.getD b []).length : ℝ) c, mul_div_mul_left _ _ hc]

/-- Witness for the amended C4 theorem at a concrete input: batch of one
sentence pair, reference embeddings `[[1,0],[0,1]]`, candidate `[[1,0]]`,
constant IDF weight 2, arbitrary ignored weight masks. -/
theorem C4_witness :
    (compute_RPF [[[(1:ℝ), 0], [0, 1]]] [[[(1:ℝ), 0]]] [[9, 9]] [[9]]
        (some [[1, 2]]) (some [[3]]) (some (fun _ => 2)) 0).1.getD 0 0
      = (((R_max_of (compute_pairwise_cosine [[[(1:ℝ), 0], [0, 1]]]
            [[[(1:ℝ), 0]]])).getD 0 []).map (fun s => (s - 0) / (1 - 0))).sum
        / ((([[[(1:ℝ), 0], [0, 1]]] : List (List (List ℝ))).getD 0 []).length : ℝ) ∧
    (compute_RPF [[[(1:ℝ), 0], [0, 1]]] [[[(1:ℝ), 0]]] [[9, 9]] [[9]]
        (some [[1, 2]]) (some [[3]]) (some (fun _ => 2)) 0).2.1.getD 0 0
      = (((P_max_of (compute_pairwise_cosine [[[(1:ℝ), 0], [0, 1]]]
            [[[(1:ℝ), 0]]])).getD 0 []).map (fun s => (s - 0) / (1 - 0))).sum
        / ((([[[(1:ℝ), 0]]] : List (List (List ℝ))).getD 0 []).length : ℝ) :=
  C4_amended_constant_idf_plain_average
    [[[(1:ℝ), 0], [0, 1]]] [[[(1:ℝ), 0]]] [[9, 9]] [[9]] [[1, 2]] [[3]] 2 0 0
    (by norm_num) (by simp) (by simp) (by simp) (by simp) (by simp) (by simp) (by simp)

theorem rescaling_zero (m : List (List ℝ)) : rescaling m 0 = m := by
  simp [rescaling]

/-- C6: for a batch element whose candidate embedding slice is identical to
its reference slice (token-for-token identical sentences under a deterministic
encoder), with `rescale_base = 0`, nonzero token vectors, and weight masks of
matching length with nonzero sum, `compute_RPF` returns
Recall = Precision = F1 = 1 at that element: each token best-matches itself
with cosine similarity 1, and no cosine exceeds 1 (Cauchy-Schwarz). -/
theorem C6_identical_pair_perfect_score
    (re ce : List (List (List ℝ))) (rwm cwm : List (List ℝ)) (b : ℕ)
    (hbre : b < re.length) (hbce : b < ce.length)
    (hbrw : b < rwm.length) (hbcw : b < cwm.length)
    (hsame : ce.getD b [] = re.getD b [])
    (hnz : ∀ v ∈ re.getD b [], dotL v v ≠ 0)
    (hrw_len : (rwm.getD b []).length = (re.getD b []).length)
    (hcw_len : (cwm.getD b []).length = (re.getD b []).length)
    (hrw_sum : (rwm.getD b []).sum ≠ 0)
    (hcw_sum : (cwm.getD b []).sum ≠ 0) :
    (compute_RPF re ce rwm cwm none none none 0).1.getD b 0 = 1 ∧
    (compute_RPF re ce rwm cwm none none none 0).2.1.getD b 0 = 1 ∧
    (compute_RPF re ce rwm cwm none none none 0).2.2.getD b 0 = 1 := by
  set pc := compute_pairwise_cosine re ce with hpc
  set E := re.getD b [] with hE
  set N := E.map normalizeRow with hN
  have hpc_len : pc.length = min re.length ce.length := by
    simp [hpc, compute_pairwise_cosine]
  have hbpc : b < pc.length := by rw [hpc_len]; omega
  have hm : pc.getD b [] = N.map (fun u => N.map (fun v => dotL u v)) := by
    rw [hpc, pairwise_getD re ce b hbre hbce, hsame]
  have hKr0 : 0 < E.length := by
    by_contra h
    have hnil : rwm.getD b [] = [] :=
      List.eq_nil_of_length_eq_zero (by omega)
    exact hrw_sum (by rw [hnil]; rfl)
  have hNlen : N.length = E.length := List.length_map E normalizeRow
  have hcos_le : ∀ u ∈ N, ∀ v ∈ N, dotL u v ≤ 1 := by
    intro u hu v hv
    rcases List.mem_map.mp hu with ⟨eu, _, rfl⟩
    rcases List.mem_map.mp hv with ⟨ev, _, rfl⟩
    exact cos_le_one eu ev
  have hcos_self : ∀ u ∈ N, dotL u u = 1 := by
    intro u hu
    rcases List.mem_map.mp hu with ⟨eu, heu, rfl⟩
    exact cos_self eu (hnz eu heu)
  -- every row maximum is 1
  have hRrow : (pc.getD b []).map listMax = List.replicate E.length 1 := by
    rw [hm, List.map_map]
    have h1 : ∀ u ∈ N,
        (listMax ∘ fun u => N.map (fun v => dotL u v)) u = (fun _ => (1:ℝ)) u := by
      intro u hu
      refine listMax_eq_of _ 1 (List.mem_map.mpr ⟨u, hu, hcos_self u hu⟩) ?_
      intro x hx
      rcases List.mem_map.mp hx with ⟨v, hv, rfl⟩
      exact hcos_le u hu v hv
    rw [List.map_congr_left h1, List.map_const', hNlen]
  -- every column maximum is 1
  have hmlen : (pc.getD b []).length = E.length := by
    rw [hm, List.length_map, hNlen]
  have hnum : numCols (pc.getD b []) = E.length := by
    rw [hm]
    unfold numCols
    cases hNN : N with
    | nil => rw [hNN] at hNlen; simp at hNlen; omega
    | cons u0 N' =>
        simp only [List.map_cons, List.headD_cons, List.length_cons, List.length_map]
        have hlen' : N.length = N'.length + 1 := by rw [hNN]; rfl
        omega
  have hProw : (List.range (numCols (pc.getD b []))).map (colMax (pc.getD b []))
      = List.replicate E.length 1 := by
    rw [hnum]
    have hcol : ∀ j ∈ List.range E.length,
        colMax (pc.getD b []) j = (fun _ => (1:ℝ)) j := by
      intro j hj
      have hjlt : j < E.length := List.mem_range.mp hj
      have hjN : j < N.length := by omega
      unfold colMax
      rw [hm, List.map_map]
      refine listMax_eq_of _ 1 ?_ ?_
      · -- the diagonal entry of column j is 1
        refine List.mem_map.mpr ⟨N.get ⟨j, hjN⟩, List.getElem_mem hjN, ?_⟩
        show (N.map (fun v => dotL (N.get ⟨j, hjN⟩) v)).getD j 0 = 1
        rw [getD_map _ _ _ _ [] hjN, List.getD_eq_getElem _ _ hjN]
        exact hcos_self _ (List.getElem_mem hjN)
      · intro x hx
        rcases List.mem_map.mp hx with ⟨u, hu, rfl⟩
        show (N.map (fun v => dotL u v)).getD j 0 ≤ 1
        rw [getD_map _ _ _ _ [] hjN, List.getD_eq_getElem _ _ hjN]
        exact hcos_le u hu _ (List.getElem_mem hjN)
    rw [List.map_congr_left hcol, List.map_const', List.length_range]
  -- assemble Recall
  have hRmax : (R_max_of pc).getD b [] = List.replicate E.length 1 := by
    unfold R_max_of
    rw [getD_map _ _ _ _ [] hbpc, hRrow]
  have hPmax : (P_max_of pc).getD b [] = List.replicate E.length 1 := by
    unfold P_max_of
    rw [getD_map _ _ _ _ [] hbpc, hProw]
  have hR : (compute_RPF re ce rwm cwm none none none 0).1.getD b 0 = 1 := by
    show (List.zipWith (fun s w => dotL s w / w.sum)
        (rescaling (R_max_of pc) 0) rwm).getD b 0 = 1
    rw [rescaling_zero]
    rw [getD_zipWith _ _ _ b 0 [] []
        (by simp only [R_max_of, List.length_map]; exact hbpc) hbrw]
    rw [hRmax, dotL_replicate_one_left _ _ hrw_len]
    exact div_self hrw_sum
  have hP : (compute_RPF re ce rwm cwm none none none 0).2.1.getD b 0 = 1 := by
    show (List.zipWith (fun s w => dotL s w / w.sum)
        (rescaling (P_max_of pc) 0) cwm).getD b 0 = 1
    rw [rescaling_zero]
    rw [getD_zipWith _ _ _ b 0 [] []
        (by simp only [P_max_of, List.length_map]; exact hbpc) hbcw]
    rw [hPmax, dotL_replicate_one_left _ _ hcw_len]
    exact div_self hcw_sum
  refine ⟨hR, hP, ?_⟩
  show (List.zipWith (fun r p => 2 * (r * p) / (r + p))
      (compute_RPF re ce rwm cwm none none none 0).1
      (compute_RPF re ce rwm cwm none none none 0).2.1).getD b 0 = 1
  have hRlen : b < (compute_RPF re ce rwm cwm none none none 0).1.length := by
    show b < (List.zipWith _ (rescaling (R_max_of pc) 0) rwm).length
    simp only [List.length_zipWith, rescaling, R_max_of, List.length_map]
    omega
  have hPlen : b < (compute_RPF re ce rwm cwm none none none 0).2.1.length := by
    show b < (List.zipWith _ (rescaling (P_max_of pc) 0) cwm).length
    simp only [List.length_zipWith, rescaling, P_max_of, List.length_map]
    omega
  rw [getD_zipWith _ _ _ b 0 0 0 hRlen hPlen, hR, hP]
  norm_num

/-- Witness for C6 at a concrete input: one pair whose reference and candidate
embedding slices are the identical two unit tokens, a content-style reference
mask `[0,1]` and an attention-style candidate mask `[1,1]`. -/
theorem C6_witness :
    (compute_RPF [[[(1:ℝ), 0], [0, 1]]] [[[(1:ℝ), 0], [0, 1]]]
        [[0, 1]] [[1, 1]] none none none 0).1.getD 0 0 = 1 ∧
    (compute_RPF [[[(1:ℝ), 0], [0, 1]]] [[[(1:ℝ), 0], [0, 1]]]
        [[0, 1]] [[1, 1]] none none none 0).2.1.getD 0 0 = 1 ∧
    (compute_RPF [[[(1:ℝ), 0], [0, 1]]] [[[(1:ℝ), 0], [0, 1]]]
        [[0, 1]] [[1, 1]] none none none 0).2.2.getD 0 0 = 1 :=
  C6_identical_pair_perfect_score
    [[[(1:ℝ), 0], [0, 1]]] [[[(1:ℝ), 0], [0, 1]]] [[0, 1]] [[1, 1]] 0
    (by simp) (by simp) (by simp) (by simp) rfl
    (by
      intro v hv
      simp at hv
      rcases hv with rfl | rfl
      · norm_num [dotL]
      · norm_num [dotL])
    (by simp) (by simp) (by norm_num) (by norm_num)

/-- C2: `compute_RPF` implements the reference definition of §4.3.  For every
batch element `b` (with rectangular shapes, no IDF, `rescale_base = 0`):
`R_max[b][i]` is the greatest element of row `i` of the pairwise similarity
slice (maximum over `j`), `P_max[b][j]` the greatest element of column `j`
(maximum over `i`); `R[b]` and `P[b]` are the weight-mask-weighted sums of the
max scores divided by the mask sums; and `F[b] = 2·R[b]·P[b]/(R[b]+P[b])`. -/
theorem C2_compute_RPF_implements_reference
    (re ce : List (List (List ℝ))) (rwm cwm : List (List ℝ))
    (B Kr Kc : ℕ)
    (hre : re.length = B) (hce : ce.length = B)
    (hrw : rwm.length = B) (hcw : cwm.length = B)
    (hKr : ∀ b < B, (re.getD b []).length = Kr)
    (hKc : ∀ b < B, (ce.getD b []).length = Kc)
    (hrwK : ∀ b < B, (rwm.getD b []).length = Kr)
    (hcwK : ∀ b < B, (cwm.getD b []).length = Kc)
    (hKr0 : 0 < Kr) (hKc0 : 0 < Kc) :
    ∀ b < B,
      (∀ i < Kr, IsGreatest
        {x : ℝ | ∃ j, j < Kc ∧
          x = (((compute_pairwise_cosine re ce).getD b []).getD i []).getD j 0}
        (((R_max_of (compute_pairwise_cosine re ce)).getD b []).getD i 0)) ∧
      (∀ j < Kc, IsGreatest
        {x : ℝ | ∃ i, i < Kr ∧
          x = (((compute_pairwise_cosine re ce).getD b []).getD i []).getD j 0}
        (((P_max_of (compute_pairwise_cosine re ce)).getD b []).getD j 0)) ∧
      (compute_RPF re ce rwm cwm none none none 0).1.getD b 0
        = (∑ i ∈ Finset.range Kr,
            ((R_max_of (compute_pairwise_cosine re ce)).getD b []).getD i 0
              * (rwm.getD b []).getD i 0)
          / (∑ i ∈ Finset.range Kr, (rwm.getD b []).getD i 0) ∧
      (compute_RPF re ce rwm cwm none none none 0).2.1.getD b 0
        = (∑ j ∈ Finset.range Kc,
            ((P_max_of (compute_pairwise_cosine re ce)).getD b []).getD j 0
              * (cwm.getD b []).getD j 0)
          / (∑ j ∈ Finset.range Kc, (cwm.getD b []).getD j 0) ∧
      (compute_RPF re ce rwm cwm none none none 0).2.2.getD b 0
        = 2 * ((compute_RPF re ce rwm cwm none none none 0).1.getD b 0
            * (compute_RPF re ce rwm cwm none none none 0).2.1.getD b 0)
          / ((compute_RPF re ce rwm cwm none none none 0).1.getD b 0
            + (compute_RPF re ce rwm cwm none none none 0).2.1.getD b 0) := by
  intro b hb
  have hbre : b < re.length := by omega
  have hbce : b < ce.length := by omega
  have hbrw : b < rwm.length := by omega
  have hbcw : b < cwm.length := by omega
  set pc := compute_pairwise_cosine re ce with hpc
  have hpc_len : pc.length = min re.length ce.length := by
    simp [hpc, compute_pairwise_cosine]
  have hbpc : b < pc.length := by rw [hpc_len]; omega
  set A := (re.getD b []).map normalizeRow with hA
  set C := (ce.getD b []).map normalizeRow with hC
  have hAlen : A.length = Kr := by rw [hA, List.length_map]; exact hKr b hb
  have hClen : C.length = Kc := by rw [hC, List.length_map]; exact hKc b hb
  have hm : pc.getD b [] = A.map (fun u => C.map (fun v => dotL u v)) := by
    rw [hpc, pairwise_getD re ce b hbre hbce]
  have hmlen : (pc.getD b []).length = Kr := by
    rw [hm, List.length_map, hAlen]
  have hrow : ∀ i, i < Kr →
      (pc.getD b []).getD i [] = C.map (fun v => dotL (A.getD i []) v) := by
    intro i hi
    rw [hm, getD_map _ _ _ _ [] (by omega)]
  have hrowlen : ∀ i, i < Kr → ((pc.getD b []).getD i []).length = Kc := by
    intro i hi
    rw [hrow i hi, List.length_map, hClen]
  have hRmaxb : (R_max_of pc).getD b [] = (pc.getD b []).map listMax := by
    unfold R_max_of
    exact getD_map _ _ _ _ [] hbpc
  have hnum : numCols (pc.getD b []) = Kc := by
    unfold numCols
    cases hmm : pc.getD b [] with
    | nil => rw [hmm] at hmlen; simp at hmlen; omega
    | cons r rs =>
        simp only [List.headD_cons]
        have : r = (pc.getD b []).getD 0 [] := by rw [hmm]; rfl
        rw [this]
        exact hrowlen 0 hKr0
  have hPmaxb : (P_max_of pc).getD b []
      = (List.range Kc).map (colMax (pc.getD b [])) := by
    unfold P_max_of
    rw [getD_map _ _ _ _ [] hbpc, hnum]
  -- (1) row maxima
  have part1 : ∀ i < Kr, IsGreatest
      {x : ℝ | ∃ j, j < Kc ∧ x = ((pc.getD b []).getD i []).getD j 0}
      (((R_max_of pc).getD b []).getD i 0) := by
    intro i hi
    have hri : ((R_max_of pc).getD b []).getD i 0 = listMax ((pc.getD b []).getD i []) := by
      rw [hRmaxb, getD_map _ _ _ _ [] (by omega)]
    set row := (pc.getD b []).getD i [] with hrw_def
    have hrlen : row.length = Kc := hrowlen i hi
    have hne : row ≠ [] := by
      intro h
      rw [h] at hrlen
      simp at hrlen
      omega
    constructor
    · -- membership
      rcases List.mem_iff_getElem.mp (listMax_mem row hne) with ⟨j, hj, hjval⟩
      refine ⟨j, by omega, ?_⟩
      rw [hri, List.getD_eq_getElem _ _ hj, hjval]
    · -- upper bound
      rintro x ⟨j, hj, rfl⟩
      rw [hri]
      exact le_listMax row _ (by
        rw [List.getD_eq_getElem _ _ (by omega)]
        exact List.getElem_mem _)
  -- (2) column maxima
  have part2 : ∀ j < Kc, IsGreatest
      {x : ℝ | ∃ i, i < Kr ∧ x = ((pc.getD b []).getD i []).getD j 0}
      (((P_max_of pc).getD b []).getD j 0) := by
    intro j hj
    have hpj : ((P_max_of pc).getD b []).getD j 0 = colMax (pc.getD b []) j := by
      rw [hPmaxb, getD_map _ _ _ _ 0 (by simpa using hj)]
      congr 1
      rw [List.getD_eq_getElem _ _ (by simpa using hj)]
      simp
    set col := (pc.getD b []).map (fun row => row.getD j 0) with hcol_def
    have hcollen : col.length = Kr := by
      rw [hcol_def, List.length_map, hmlen]
    have hcolne : col ≠ [] := by
      intro h
      rw [h] at hcollen
      simp at hcollen
      omega
    have hcolget : ∀ i, i < Kr → col.getD i 0 = ((pc.getD b []).getD i []).getD j 0 := by
      intro i hi
      rw [hcol_def, getD_map _ _ _ _ [] (by omega)]
    constructor
    · rcases List.mem_iff_getElem.mp (listMax_mem col hcolne) with ⟨i, hi, hival⟩
      refine ⟨i, by omega, ?_⟩
      rw [hpj]
      unfold colMax
      rw [← hcol_def, ← hival, ← hcolget i (by omega),
        List.getD_eq_getElem _ _ hi]
    · rintro x ⟨i, hi, rfl⟩
      rw [hpj]
      unfold colMax
      rw [← hcol_def, ← hcolget i hi]
      exact le_listMax col _ (by
        rw [List.getD_eq_getElem _ _ (by omega)]
        exact List.getElem_mem _)
  -- (3) Recall aggregation
  have part3 : (compute_RPF re ce rwm cwm none none none 0).1.getD b 0
      = (∑ i ∈ Finset.range Kr,
          ((R_max_of pc).getD b []).getD i 0 * (rwm.getD b []).getD i 0)
        / (∑ i ∈ Finset.range Kr, (rwm.getD b []).getD i 0) := by
    show (List.zipWith (fun s w => dotL s w / w.sum)
        (rescaling (R_max_of pc) 0) rwm).getD b 0 = _
    rw [rescaling_zero]
    rw [getD_zipWith _ _ _ b 0 [] []
        (by simp only [R_max_of, List.length_map]; exact hbpc) hbrw]
    have hslen : ((R_max_of pc).getD b []).length = Kr := by
      rw [hRmaxb, List.length_map, hmlen]
    rw [dotL_eq_sum_range _ _ (by rw [hslen, hrwK b hb]), hslen,
      sum_eq_range_getD (rwm.getD b []), hrwK b hb]
  -- (4) Precision aggregation
  have part4 : (compute_RPF re ce rwm cwm none none none 0).2.1.getD b 0
      = (∑ j ∈ Finset.range Kc,
          ((P_max_of pc).getD b []).getD j 0 * (cwm.getD b []).getD j 0)
        / (∑ j ∈ Finset.range Kc, (cwm.getD b []).getD j 0) := by
    show (List.zipWith (fun s w => dotL s w / w.sum)
        (rescaling (P_max_of pc) 0) cwm).getD b 0 = _
    rw [rescaling_zero]
    rw [getD_zipWith _ _ _ b 0 [] []
        (by simp only [P_max_of, List.length_map]; exact hbpc) hbcw]
    have hslen : ((P_max_of pc).getD b []).length = Kc := by
      rw [hPmaxb, List.length_map, List.length_range]
    rw [dotL_eq_sum_range _ _ (by rw [hslen, hcwK b hb]), hslen,
      sum_eq_range_getD (cwm.getD b []), hcwK b hb]
  -- (5) harmonic mean
  refine ⟨part1, part2, part3, part4, ?_⟩
  show (List.zipWith (fun r p => 2 * (r * p) / (r + p))
      (compute_RPF re ce rwm cwm none none none 0).1
      (compute_RPF re ce rwm cwm none none none 0).2.1).getD b 0 = _
  have hRlen : b < (compute_RPF re ce rwm cwm none none none 0).1.length := by
    show b < (List.zipWith _ (rescaling (R_max_of pc) 0) rwm).length
    simp only [List.length_zipWith, rescaling, R_max_of, List.length_map]
    omega
  have hPlen : b < (compute_RPF re ce rwm cwm none none none 0).2.1.length := by
    show b < (List.zipWith _ (rescaling (P_max_of pc) 0) cwm).length
    simp only [List.length_zipWith, rescaling, P_max_of, List.length_map]
    omega
  rw [getD_zipWith _ _ _ b 0 0 0 hRlen hPlen]

/-- Witness for C2 at a concrete input: one pair, reference embeddings
`[[1,0],[0,1]]`, candidate embeddings `[[1,0],[3/5,4/5]]`, weight masks
`[1,2]` and `[1,0]`, evaluated at batch index 0. -/
theorem C2_witness :
    (∀ i < 2, IsGreatest
      {x : ℝ | ∃ j, j < 2 ∧
        x = (((compute_pairwise_cosine [[[(1:ℝ), 0], [0, 1]]]
          [[[(1:ℝ), 0], [3/5, 4/5]]]).getD 0 []).getD i []).getD j 0}
      (((R_max_of (compute_pairwise_cosine [[[(1:ℝ), 0], [0, 1]]]
        [[[(1:ℝ), 0], [3/5, 4/5]]])).getD 0 []).getD i 0)) ∧
    (∀ j < 2, IsGreatest
      {x : ℝ | ∃ i, i < 2 ∧
        x = (((compute_pairwise_cosine [[[(1:ℝ), 0], [0, 1]]]
          [[[(1:ℝ), 0], [3/5, 4/5]]]).getD 0 []).getD i []).getD j 0}
      (((P_max_of (compute_pairwise_cosine [[[(1:ℝ), 0], [0, 1]]]
        [[[(1:ℝ), 0], [3/5, 4/5]]])).getD 0 []).getD j 0)) ∧
    (compute_RPF [[[(1:ℝ), 0], [0, 1]]] [[[(1:ℝ), 0], [3/5, 4/5]]]
        [[1, 2]] [[1, 0]] none none none 0).1.getD 0 0
      = (∑ i ∈ Finset.range 2,
          ((R_max_of (compute_pairwise_cosine [[[(1:ℝ), 0], [0, 1]]]
            [[[(1:ℝ), 0], [3/5, 4/5]]])).getD 0 []).getD i 0
            * (([[(1:ℝ), 2]] : List (List ℝ)).getD 0 []).getD i 0)
        / (∑ i ∈ Finset.range 2, (([[(1:ℝ), 2]] : List (List ℝ)).getD 0 []).getD i 0) ∧
    (compute_RPF [[[(1:ℝ), 0], [0, 1]]] [[[(1:ℝ), 0], [3/5, 4/5]]]
        [[1, 2]] [[1, 0]] none none none 0).2.1.getD 0 0
      = (∑ j ∈ Finset.range 2,
          ((P_max_of (compute_pairwise_cosine [[[(1:ℝ), 0], [0, 1]]]
            [[[(1:ℝ), 0], [3/5, 4/5]]])).getD 0 []).getD j 0
            * (([[(1:ℝ), 0]] : List (List ℝ)).getD 0 []).getD j 0)
        / (∑ j ∈ Finset.range 2, (([[(1:ℝ), 0]] : List (List ℝ)).getD 0 []).getD j 0) ∧
    (compute_RPF [[[(1:ℝ), 0], [0, 1]]] [[[(1:ℝ), 0], [3/5, 4/5]]]
        [[1, 2]] [[1, 0]] none none none 0).2.2.getD 0 0
      = 2 * ((compute_RPF [[[(1:ℝ), 0], [0, 1]]] [[[(1:ℝ), 0], [3/5, 4/5]]]
            [[1, 2]] [[1, 0]] none none none 0).1.getD 0 0
          * (compute_RPF [[[(1:ℝ), 0], [0, 1]]] [[[(1:ℝ), 0], [3/5, 4/5]]]
            [[1, 2]] [[1, 0]] none none none 0).2.1.getD 0 0)
        / ((compute_RPF [[[(1:ℝ), 0], [0, 1]]] [[[(1:ℝ), 0], [3/5, 4/5]]]
            [[1, 2]] [[1, 0]] none none none 0).1.getD 0 0
          + (compute_RPF [[[(1:ℝ), 0], [0, 1]]] [[[(1:ℝ), 0], [3/5, 4/5]]]
            [[1, 2]] [[1, 0]] none none none 0).2.1.getD 0 0) :=
  C2_compute_RPF_implements_reference
    [[[(1:ℝ), 0], [0, 1]]] [[[(1:ℝ), 0], [3/5, 4/5]]] [[1, 2]] [[1, 0]] 1 2 2
    rfl rfl rfl rfl
    (by intro b hb; have hb0 : b = 0 := by omega
        subst hb0; simp)
    (by intro b hb; have hb0 : b = 0 := by omega
        subst hb0; simp)
    (by intro b hb; have hb0 : b = 0 := by omega
        subst hb0; simp)
    (by intro b hb; have hb0 : b = 0 := by omega
        subst hb0; simp)
    (by norm_num) (by norm_num) 0 (by norm_num)

/-- C3 amended: batch-size invariance holds under the two conditions the
padding-free reading of the spec requires — the encoder maps each batch row
independently (`model = zipWith f`), and all sentences of each side tokenize
to a single common length (so the per-batch padding is vacuous).  Then
`BERTScore.score` equals the per-pair map of `pairRPF` regardless of the
(positive) batch size, so any two batch sizes give identical score lists.
(The counterexample shows the claim fails without the uniform-length
condition: padding enters the unmasked similarity maxima.) -/
theorem C3_amended_batch_invariance_uniform_lengths (tok : Tokenizer)
    (model : EncoderT) (f : List ℕ → List ℝ → List (List ℝ))
    (idf : Option (ℕ → ℝ)) (base : ℝ) (refs cands : List String) (Lr Lc : ℕ)
    (hmodel : ∀ ids attn, model ids attn = List.zipWith f ids attn)
    (hlen : refs.length = cands.length)
    (hLr : ∀ s ∈ refs, (tok.encode s).length = Lr)
    (hLc : ∀ s ∈ cands, (tok.encode s).length = Lc)
    (bs1 bs2 : ℕ) (h1 : 0 < bs1) (h2 : 0 < bs2) :
    BERTScore_score tok model idf base refs cands bs1 =
    BERTScore_score tok model idf base refs cands bs2 := by
  suffices key : ∀ bs, 0 < bs → BERTScore_score tok model idf base refs cands bs
      = (refs.zip cands).map (fun p => (pairRPF tok f idf base p).2.2) by
    rw [key bs1 h1, key bs2 h2]
  intro bs hbs
  unfold BERTScore_score
  dsimp only
  rw [foldl_append_eq_flatten, List.nil_append]
  have hchunk : ∀ step : ℕ,
      (bert_score tok model
        ((refs.drop (step * bs)).take (min ((step + 1) * bs) refs.length - step * bs))
        ((cands.drop (step * bs)).take (min ((step + 1) * bs) refs.length - step * bs))
        idf base).2.2
      = (((refs.zip cands).map
            (fun p => (pairRPF tok f idf base p).2.2)).drop (step * bs)).take
          (min ((step + 1) * bs) refs.length - step * bs) := by
    intro step
    have hx := bert_score_eq_map_pairRPF tok model f idf base
      ((refs.drop (step * bs)).take (min ((step + 1) * bs) refs.length - step * bs))
      ((cands.drop (step * bs)).take (min ((step + 1) * bs) refs.length - step * bs))
      Lr Lc hmodel
      (by rw [List.length_take, List.length_take, List.length_drop,
        List.length_drop, hlen])
      (fun s hs => hLr s (List.mem_of_mem_drop (List.mem_of_mem_take hs)))
      (fun s hs => hLc s (List.mem_of_mem_drop (List.mem_of_mem_take hs)))
    have hx2 := congrArg (fun q : List ℝ × List ℝ × List ℝ => q.2.2) hx
    dsimp only at hx2
    rw [hx2, zip_take, zip_drop, List.map_take, List.map_drop]
  rw [List.map_congr_left (fun step _ => hchunk step)]
  have hzlen : ((refs.zip cands).map
      (fun p => (pairRPF tok f idf base p).2.2)).length = refs.length := by
    rw [List.length_map, List.length_zip, hlen, min_self]
  rw [← hzlen]
  exact flatten_chunks _ bs hbs

/-- Witness for the amended C3 theorem: with the concrete row-independent
encoder and sentences that all tokenize to length 1, a batch of size 2 and two
batches of size 1 give the same scores. -/
theorem C3_witness :
    BERTScore_score exTok exModel none 0 ["a", "c"] ["c", "a"] 2 =
    BERTScore_score exTok exModel none 0 ["a", "c"] ["c", "a"] 1 :=
  C3_amended_batch_invariance_uniform_lengths exTok exModel exRowF none 0
    ["a", "c"] ["c", "a"] 1 1
    (fun _ _ => rfl) rfl
    (by intro s hs
        simp only [List.mem_cons, List.not_mem_nil, or_false] at hs
        rcases hs with rfl | rfl <;> simp [exTok])
    (by intro s hs
        simp only [List.mem_cons, List.not_mem_nil, or_false] at hs
        rcases hs with rfl | rfl <;> simp [exTok])
    2 1 (by norm_num) (by norm_num)

end KoBERTScore
